import Mathlib

/-!
Verification of the crypto price tracker (src/src/main.rs).

The program keeps a `HashMap<String, String>` from trading symbol to the
latest observed price string (the Price Store), fed by a WebSocket
ingestion loop and read by a periodic snapshot printer.  We embed the
store as an association list in which `update` (the `map.insert` of
line 104) replaces the value of an existing key in place and otherwise
appends, so that iteration order is a concrete stand-in for the map's
entry order.  Inbound WebSocket messages, the serde decode step and the
ticker filter of lines 93-115 are embedded as pure functions; the
transport is a list of `Except` values (Ok message / Err error), and the
whole reading loop of lines 93-115 becomes `runLoop`.
-/

namespace CrabbyTracker

/-- The shared price map: symbol key, latest price string value
(`HashMap<String, String>`, line 75 of main.rs). -/
abbrev Store := List (String × String)

/-- `map.insert(symbol, price)` (line 104): unconditional upsert.  An
existing entry for the key is overwritten in place; a new key is
appended. -/
def Store.update : Store → String → String → Store
  | [], k, v => [(k, v)]
  | (k', v') :: rest, k, v =>
      if k' = k then (k, v) :: rest else (k', v') :: Store.update rest k v

/-- Lookup of the current price for a symbol in the store. -/
def Store.find? : Store → String → Option String
  | [], _ => none
  | (k', v') :: rest, k => if k' = k then some v' else Store.find? rest k

/-- The decoded inbound JSON shape (struct `TickerMessage`, lines 19-25):
`type` discriminator, product id, optional price string. -/
structure TickerMessage where
  msg_type : String
  product_id : String
  price : Option String
  deriving DecidableEq, Repr

/-- A raw WebSocket message: a text frame carrying a payload string, a
binary frame, or any other frame kind (ping/pong/close). -/
inductive Msg where
  | text (payload : String)
  | binary
  | other
  deriving DecidableEq, Repr

/-- `m.is_text()` (line 96). -/
def Msg.is_text : Msg → Bool
  | .text _ => true
  | _ => false

/-- `m.to_text()` (line 97): succeeds exactly on text frames (returning
their payload); `none` models the `Err` result on non-text frames. -/
def Msg.to_text : Msg → Option String
  | .text s => some s
  | _ => none

/-- Lines 100-106: the effect of one successfully decoded event on the
store.  Only events with `msg_type == "ticker"` and a present price are
applied; the `price.unwrap()` of line 104 is the `some` branch of the
match, which the guard makes the only reachable one. -/
def applyEvent (s : Store) (e : TickerMessage) : Store :=
  if e.msg_type == "ticker" && e.price.isSome then
    match e.price with
    | some p => s.update e.product_id p
    | none => s
  else s

/-- Lines 96-107: the effect of one `Ok` WebSocket message on the store.
`decode` is the `serde_json::from_str::<TickerMessage>` collaborator of
line 100: `some` on messages matching the shape, `none` otherwise. -/
def processMsg (decode : String → Option TickerMessage) (m : Msg) (s : Store) : Store :=
  if m.is_text then
    match m.to_text with
    | some t =>
        match decode t with
        | some parsed => applyEvent s parsed
        | none => s
    | none => s
  else s

/-- Folding a list of `Ok` messages through `processMsg`. -/
def execMsgs (decode : String → Option TickerMessage) (ms : List Msg) (s : Store) : Store :=
  ms.foldl (fun st m => processMsg decode m st) s

/-- Lines 93-115: the WebSocket reading loop.  The stream yields
`Except.ok m` (a delivered message, processed in order) or
`Except.error e` (a transport read failure, which is logged and breaks
the loop at once, line 112).  Returns the final store and whether the
loop ended on an error. -/
def runLoop (decode : String → Option TickerMessage) :
    List (Except String Msg) → Store → Store × Bool
  | [], s => (s, false)
  | .ok m :: rest, s => runLoop decode rest (processMsg decode m s)
  | .error _ :: _, s => (s, true)

/-- Line 117: whatever way the reading loop ended (end of stream or the
error `break`), `main` falls through to `Ok(())`. -/
def mainResult (decode : String → Option TickerMessage)
    (stream : List (Except String Msg)) : Except String Unit :=
  match runLoop decode stream [] with
  | (_, _) => Except.ok ()

/-! ### Last-write-wins machinery for C1 -/

/-- Applying a sequence of `update` calls in order. -/
def applyUpdates (us : List (String × String)) (s : Store) : Store :=
  us.foldl (fun st u => st.update u.1 u.2) s

/-- The price of the last update for `k` in the sequence, if any. -/
def lastUpdate (us : List (String × String)) (k : String) : Option String :=
  us.foldl (fun acc u => if u.1 = k then some u.2 else acc) none

/-! ### Interleaving model for C2

The store is protected by a `Mutex` (line 75): the writer's
insert (lines 103-104) and the reporter's locked read (lines 83-88) are
each one critical section, so a concurrent execution is an arbitrary
interleaving of atomic operations on the store.  `Op.update` is one
lock-insert-unlock by the ingestion loop; `Op.snap` is one
lock-read-unlock by the snapshot reporter. -/

/-- One mutex-guarded critical section on the shared store. -/
inductive Op where
  | update (symbol price : String)
  | snap
  deriving DecidableEq, Repr

/-- The store after one atomic operation (a snapshot read mutates
nothing). -/
def applyOp (s : Store) : Op → Store
  | .update k v => s.update k v
  | .snap => s

/-- The store after a whole interleaving. -/
def execOps (ops : List Op) (s : Store) : Store :=
  ops.foldl applyOp s

/-- The sequence of snapshots the reporter observes along an
interleaving: each `snap` yields the store state at that instant. -/
def snapshots : List Op → Store → List Store
  | [], _ => []
  | .update k v :: rest, s => snapshots rest (s.update k v)
  | .snap :: rest, s => s :: snapshots rest s

/-- The update operations of an interleaving, in order. -/
def updatesOf : List Op → List (String × String)
  | [] => []
  | .update k v :: rest => (k, v) :: updatesOf rest
  | .snap :: rest => updatesOf rest

/-! ### The scenario of C6 -/

/-- The three decoded events of the C6 scenario. -/
def c6Events : List TickerMessage :=
  [⟨"ticker", "BTC-USD", some "50000.00"⟩,
   ⟨"ticker", "BTC-USD", some "50010.50"⟩,
   ⟨"heartbeat", "BTC-USD", some "1"⟩]

/-- Instrumented variant of `applyEvent` that also reports whether the
`map.insert` of line 104 was executed for the event. -/
def applyEventI (s : Store) (e : TickerMessage) : Store × Bool :=
  if e.msg_type == "ticker" && e.price.isSome then
    match e.price with
    | some p => (s.update e.product_id p, true)
    | none => (s, true)
  else (s, false)

/-! ### Panic-freedom of the two unwraps (C9) -/

/-- Panic-explicit model of an `unwrap`: `Except.error ()` is a panic. -/
def optionUnwrap {α : Type} (o : Option α) : Except Unit α :=
  match o with
  | some a => Except.ok a
  | none => Except.error ()

/-- Lines 102-105 with the `price.unwrap()` of line 104 made
panic-explicit. -/
def applyEventChecked (s : Store) (e : TickerMessage) : Except Unit Store :=
  if e.msg_type == "ticker" && e.price.isSome then
    (optionUnwrap e.price).map (fun p => s.update e.product_id p)
  else Except.ok s

/-- Lines 96-107 with both unwraps (`to_text().unwrap()` on line 97 and
`price.unwrap()` on line 104) made panic-explicit. -/
def processMsgChecked (decode : String → Option TickerMessage) (m : Msg) (s : Store) :
    Except Unit Store :=
  if m.is_text then
    (optionUnwrap m.to_text).bind (fun t =>
      match decode t with
      | some parsed => applyEventChecked s parsed
      | none => Except.ok s)
  else Except.ok s

/-! ### The snapshot reporter's rendering (C7) -/

/-- Line 86: `println!("{}: ${}", symbol, price)` for one entry. -/
def renderLine (entry : String × String) : String :=
  entry.1 ++ ": $" ++ entry.2 ++ "\n"

/-- Lines 84-88: the whole console block of one reporter firing:
banner, one line per entry in the store's iteration order, closing
banner (each `println!` appends a newline). -/
def render (s : Store) : String :=
  "\n==== Latest Prices (every 30 seconds) ====\n"
    ++ String.join (s.map renderLine)
    ++ "===========================================\n\n"

/-- Two stores that represent the same (symbol, price) mapping. -/
def sameMapping (s1 s2 : Store) : Prop :=
  ∀ k, s1.find? k = s2.find? k

/-- A store whose keys are pairwise distinct (the HashMap invariant). -/
def nodupKeys (s : Store) : Prop :=
  (s.map Prod.fst).Nodup

/-- Removing the (first) entry for a key. -/
def eraseKey : Store → String → Store
  | [], _ => []
  | (k', v') :: rest, k => if k' = k then rest else (k', v') :: eraseKey rest k

/-! ### Theorems -/

theorem find?_update (s : Store) (k0 v0 k : String) :
    (s.update k0 v0).find? k = if k0 = k then some v0 else s.find? k := by
  induction s with
  | nil => simp [Store.update, Store.find?]
  | cons hd tl ih =>
      obtain ⟨k', v'⟩ := hd
      by_cases h1 : k' = k0
      · subst h1
        by_cases h2 : k' = k <;> simp [Store.update, Store.find?, h2]
      · by_cases h2 : k' = k
        · subst h2
          have h3 : k0 ≠ k' := fun h => h1 h.symm
          simp [Store.update, Store.find?, h1, h3]
        · simp [Store.update, Store.find?, h1, h2, ih]

theorem lastUpdate_shift (us : List (String × String)) (k : String) (acc : Option String) :
    us.foldl (fun a u => if u.1 = k then some u.2 else a) acc
      = (us.foldl (fun a u => if u.1 = k then some u.2 else a) none).or acc := by
  induction us generalizing acc with
  | nil => cases acc <;> rfl
  | cons hd tl ih =>
      simp only [List.foldl_cons]
      rw [ih (if hd.1 = k then some hd.2 else acc),
          ih (if hd.1 = k then some hd.2 else none)]
      cases h : tl.foldl (fun a u => if u.1 = k then some u.2 else a) none with
      | none => by_cases hk : hd.1 = k <;> simp [hk, Option.or]
      | some v => simp [Option.or]

theorem lastUpdate_cons (hd : String × String) (tl : List (String × String)) (k : String) :
    lastUpdate (hd :: tl) k
      = (lastUpdate tl k).or (if hd.1 = k then some hd.2 else none) := by
  simp only [lastUpdate, List.foldl_cons]
  exact lastUpdate_shift tl k (if hd.1 = k then some hd.2 else none)

theorem find?_applyUpdates (us : List (String × String)) (s : Store) (k : String) :
    (applyUpdates us s).find? k = (lastUpdate us k).or (s.find? k) := by
  induction us generalizing s with
  | nil => cases h : s.find? k <;> simp [applyUpdates, lastUpdate, Option.or, h]
  | cons hd tl ih =>
      simp only [applyUpdates, List.foldl_cons] at ih ⊢
      rw [ih, find?_update, lastUpdate_cons]
      cases h : lastUpdate tl k with
      | none => by_cases hk : hd.1 = k <;> simp [hk, Option.or]
      | some v => simp [Option.or]

/-- C1: For every sequence of update operations applied in order to
the empty Price Store, the snapshot maps each symbol to exactly the
price of the last update for that symbol, and has no entry for a symbol
never updated: lookup after the sequence equals the last update per key
(`none` when the key never occurs). -/
theorem c1_last_write_wins (us : List (String × String)) (k : String) :
    (applyUpdates us []).find? k = lastUpdate us k := by
  rw [find?_applyUpdates]
  cases h : lastUpdate us k <;> simp [Store.find?, Option.or]

theorem snapshots_append (a b : List Op) (s : Store) :
    snapshots (a ++ b) s = snapshots a s ++ snapshots b (execOps a s) := by
  induction a generalizing s with
  | nil => simp [snapshots, execOps]
  | cons op rest ih =>
      cases op with
      | update k v =>
          simp only [List.cons_append, snapshots, execOps, List.foldl_cons, applyOp]
          exact ih (s.update k v)
      | snap =>
          rw [List.cons_append]
          show s :: snapshots (rest ++ b) s
              = (s :: snapshots rest s) ++ snapshots b (execOps rest s)
          rw [ih s, List.cons_append]

theorem execOps_eq_applyUpdates (ops : List Op) (s : Store) :
    execOps ops s = applyUpdates (updatesOf ops) s := by
  induction ops generalizing s with
  | nil => simp [execOps, updatesOf, applyUpdates]
  | cons op rest ih =>
      cases op with
      | update k v =>
          simp only [execOps, List.foldl_cons, applyOp, updatesOf, applyUpdates] at ih ⊢
          exact ih (s.update k v)
      | snap =>
          simp only [execOps, List.foldl_cons, applyOp, updatesOf] at ih ⊢
          exact ih s

theorem lastUpdate_isSome_of_mem (us : List (String × String)) (k : String)
    (h : k ∈ us.map Prod.fst) : (lastUpdate us k).isSome = true := by
  induction us with
  | nil => simp at h
  | cons hd tl ih =>
      rw [lastUpdate_cons]
      rw [List.map_cons, List.mem_cons] at h
      cases h2 : lastUpdate tl k with
      | some v => simp [Option.or]
      | none =>
          rcases h with h1 | h1
          · simp [Option.or, h1]
          · have := ih h1
            rw [h2] at this
            simp at this

/-- C2: in any interleaving of atomic (mutex-guarded) update sections
and snapshot reads, the snapshot taken at a given point is exactly the
store produced by the complete prefix of updates before it (never a
torn intermediate state), and every symbol whose update completed
before the snapshot began appears in it with its fully-written (last)
price value. -/
theorem c2_snapshot_consistency (pre post : List Op) (sym : String)
    (h : sym ∈ (updatesOf pre).map Prod.fst) :
    snapshots (pre ++ Op.snap :: post) []
      = snapshots pre [] ++ execOps pre [] :: snapshots post (execOps pre []) ∧
    (execOps pre []).find? sym = lastUpdate (updatesOf pre) sym ∧
    ((execOps pre []).find? sym).isSome = true := by
  have hfind : (execOps pre []).find? sym = lastUpdate (updatesOf pre) sym := by
    rw [execOps_eq_applyUpdates, find?_applyUpdates]
    cases h2 : lastUpdate (updatesOf pre) sym <;> simp [Store.find?, Option.or]
  refine ⟨?_, hfind, ?_⟩
  · rw [snapshots_append]
    rfl
  · rw [hfind]
    exact lastUpdate_isSome_of_mem _ _ h

/-- Witness for C2 at a concrete interleaving: one completed update for
"BTC-USD", then a snapshot concurrent with a later update. -/
theorem c2_snapshot_consistency_witness :
    snapshots ([Op.update "BTC-USD" "50000.00"] ++ Op.snap :: [Op.update "ETH-USD" "3000"]) []
      = snapshots [Op.update "BTC-USD" "50000.00"] []
          ++ execOps [Op.update "BTC-USD" "50000.00"] []
            :: snapshots [Op.update "ETH-USD" "3000"] (execOps [Op.update "BTC-USD" "50000.00"] []) ∧
    (execOps [Op.update "BTC-USD" "50000.00"] []).find? "BTC-USD"
      = lastUpdate (updatesOf [Op.update "BTC-USD" "50000.00"]) "BTC-USD" ∧
    ((execOps [Op.update "BTC-USD" "50000.00"] []).find? "BTC-USD").isSome = true :=
  c2_snapshot_consistency [Op.update "BTC-USD" "50000.00"] [Op.update "ETH-USD" "3000"]
    "BTC-USD" (by simp [updatesOf])

/-- C6: from the empty store, applying the two ticker events for
"BTC-USD" and then a heartbeat event yields a snapshot mapping
"BTC-USD" to "50010.50" (the later ticker price) and containing no
entry for "ETH-USD". -/
theorem c6_scenario :
    (c6Events.foldl applyEvent []).find? "BTC-USD" = some "50010.50" ∧
    (c6Events.foldl applyEvent []).find? "ETH-USD" = none := by
  constructor <;> rfl

/-! ### The ticker filter (C3) -/

/-- C3 counterexample: an event that passes the filter (kind "ticker",
price present) but rewrites the price already stored leaves the store
state equal, so "changes the store iff the filter passes" is false as
stated. -/
theorem c3_counterexample :
    ¬ (∀ (e : TickerMessage) (s : Store),
        applyEvent s e ≠ s ↔ (e.msg_type == "ticker" && e.price.isSome) = true) := by
  intro hall
  exact (hall ⟨"ticker", "BTC-USD", some "50000.00"⟩ [("BTC-USD", "50000.00")]).mpr
    (by decide) rfl

/-- C3 (amended): processing a successfully decoded event executes the
store write (the insert of line 104) if and only if its kind is
"ticker" and its price is present; an event failing either condition
leaves the store exactly unchanged and has no other effect.  (A write
that passes the filter can still leave the state equal when it rewrites
the value already stored.) -/
theorem c3_filter_gates_write (e : TickerMessage) (s : Store) :
    ((applyEventI s e).2 = true ↔ (e.msg_type == "ticker" && e.price.isSome) = true) ∧
    ((e.msg_type == "ticker" && e.price.isSome) = false →
      applyEvent s e = s ∧ (applyEventI s e).1 = s) ∧
    (applyEventI s e).1 = applyEvent s e := by
  by_cases hg : (e.msg_type == "ticker" && e.price.isSome) = true
  · have hgand : e.msg_type = "ticker" ∧ e.price.isSome = true := by
      simpa using hg
    obtain ⟨p, hp⟩ := Option.isSome_iff_exists.mp hgand.2
    refine ⟨?_, ?_, ?_⟩ <;> simp [applyEventI, applyEvent, hg, hp, hgand.1]
  · have hg' : (e.msg_type == "ticker" && e.price.isSome) = false :=
      Bool.eq_false_iff.mpr (fun hb => hg hb)
    refine ⟨?_, ?_, ?_⟩ <;> simp [applyEventI, applyEvent, hg']

/-- Witness for C3 (amended) at a heartbeat event: the filter rejects
it and the store is untouched. -/
theorem c3_filter_gates_write_witness :
    applyEvent [("BTC-USD", "1")] ⟨"heartbeat", "BTC-USD", some "1"⟩ = [("BTC-USD", "1")] ∧
    (applyEventI [("BTC-USD", "1")] ⟨"heartbeat", "BTC-USD", some "1"⟩).1 = [("BTC-USD", "1")] :=
  (c3_filter_gates_write ⟨"heartbeat", "BTC-USD", some "1"⟩ [("BTC-USD", "1")]).2.1 (by decide)

/-! ### Loop behaviour on malformed messages and transport errors -/

/-- C4: a text message whose payload fails to decode leaves the store
unchanged, and the reading loop does not terminate on it: the loop on
that message followed by any remainder behaves exactly as the loop on
the remainder alone. -/
theorem c4_malformed_discarded (decode : String → Option TickerMessage)
    (t : String) (rest : List (Except String Msg)) (s : Store)
    (h : decode t = none) :
    processMsg decode (Msg.text t) s = s ∧
    runLoop decode (Except.ok (Msg.text t) :: rest) s = runLoop decode rest s := by
  have hp : processMsg decode (Msg.text t) s = s := by
    simp [processMsg, Msg.is_text, Msg.to_text, h]
  refine ⟨hp, ?_⟩
  show runLoop decode rest (processMsg decode (Msg.text t) s) = runLoop decode rest s
  rw [hp]

/-- Witness for C4: a non-JSON payload under a decoder rejecting
everything, followed by an empty remainder. -/
theorem c4_malformed_discarded_witness :
    processMsg (fun _ => none) (Msg.text "not json") [] = [] ∧
    runLoop (fun _ => none) (Except.ok (Msg.text "not json") :: []) []
      = runLoop (fun _ => none) [] [] :=
  c4_malformed_discarded (fun _ => none) "not json" [] [] rfl

theorem runLoop_append_ok (decode : String → Option TickerMessage)
    (pre : List Msg) (tail : List (Except String Msg)) (s : Store) :
    runLoop decode (pre.map Except.ok ++ tail) s
      = runLoop decode tail (execMsgs decode pre s) := by
  induction pre generalizing s with
  | nil => simp [execMsgs]
  | cons m rest ih =>
      simp only [List.map_cons, List.cons_append]
      show runLoop decode (rest.map Except.ok ++ tail) (processMsg decode m s)
          = runLoop decode tail (execMsgs decode (m :: rest) s)
      rw [ih]
      simp [execMsgs]

/-- C5: a transport read error terminates the reading loop at once -
the rest of the stream is never consumed, so there is no retry or
reconnection - and the final store is exactly the one produced by the
messages processed before the failure: a snapshot after the failure
still reflects every update applied before it. -/
theorem c5_error_stops_loop (decode : String → Option TickerMessage)
    (pre : List Msg) (e : String) (rest : List (Except String Msg)) (s : Store) :
    runLoop decode (Except.error e :: rest) s = (s, true) ∧
    runLoop decode (pre.map Except.ok ++ Except.error e :: rest) s
      = (execMsgs decode pre s, true) := by
  refine ⟨rfl, ?_⟩
  rw [runLoop_append_ok]
  rfl

/-- C10: whether the reading loop ends on a transport error (the error
branch of lines 109-113 was taken, flag `true`) or on a clean end of
stream, `main` falls through to `Ok(())` (line 117): at the
process-result level the two endings are indistinguishable. -/
theorem c10_error_exit_ok (decode : String → Option TickerMessage)
    (pre : List Msg) (e : String) (rest : List (Except String Msg)) :
    (runLoop decode (pre.map Except.ok ++ Except.error e :: rest) []).2 = true ∧
    mainResult decode (pre.map Except.ok ++ Except.error e :: rest) = Except.ok () ∧
    mainResult decode (pre.map Except.ok) = Except.ok () := by
  refine ⟨?_, rfl, rfl⟩
  rw [runLoop_append_ok]
  rfl

/-! ### No entry is ever removed (C8) -/

theorem find?_update_isSome (s : Store) (k0 v0 k : String)
    (h : (s.find? k).isSome = true) :
    ((s.update k0 v0).find? k).isSome = true := by
  rw [find?_update]
  by_cases hk : k0 = k <;> simp [hk, h]

theorem applyEvent_preserves_entry (s : Store) (e : TickerMessage) (k : String)
    (h : (s.find? k).isSome = true) :
    ((applyEvent s e).find? k).isSome = true := by
  unfold applyEvent
  by_cases hg : (e.msg_type == "ticker" && e.price.isSome) = true
  · rw [if_pos hg]
    cases hp : e.price with
    | some p => exact find?_update_isSome s e.product_id p k h
    | none => exact h
  · rw [if_neg hg]
    exact h

theorem processMsg_preserves_entry (decode : String → Option TickerMessage)
    (m : Msg) (s : Store) (k : String)
    (h : (s.find? k).isSome = true) :
    ((processMsg decode m s).find? k).isSome = true := by
  unfold processMsg
  cases m with
  | text t =>
      cases hd : decode t with
      | some parsed =>
          simpa [Msg.is_text, Msg.to_text, hd] using
            applyEvent_preserves_entry s parsed k h
      | none => simpa [Msg.is_text, Msg.to_text, hd] using h
  | binary => simpa [Msg.is_text] using h
  | other => simpa [Msg.is_text] using h

theorem runLoop_preserves_entry (decode : String → Option TickerMessage)
    (stream : List (Except String Msg)) (s : Store) (k : String)
    (h : (s.find? k).isSome = true) :
    (((runLoop decode stream s).1).find? k).isSome = true := by
  induction stream generalizing s with
  | nil => exact h
  | cons hd rest ih =>
      cases hd with
      | ok m => exact ih (processMsg decode m s) (processMsg_preserves_entry decode m s k h)
      | error e => exact h

theorem execOps_preserves_entry (ops : List Op) (s : Store) (k : String)
    (h : (s.find? k).isSome = true) :
    ((execOps ops s).find? k).isSome = true := by
  induction ops generalizing s with
  | nil => exact h
  | cons op rest ih =>
      cases op with
      | update k0 v0 =>
          exact ih (s.update k0 v0) (find?_update_isSome s k0 v0 k h)
      | snap => exact ih s h

/-- C8: no operation ever removes an entry: if the store has an entry
for a symbol, it still has one after the reading loop consumes any
further stream, and after any further interleaving of atomic updates
and snapshot reads (snapshots mutate nothing). -/
theorem c8_no_deletion (decode : String → Option TickerMessage)
    (stream : List (Except String Msg)) (ops : List Op) (s : Store) (k : String)
    (h : (s.find? k).isSome = true) :
    (((runLoop decode stream s).1).find? k).isSome = true ∧
    ((execOps ops s).find? k).isSome = true :=
  ⟨runLoop_preserves_entry decode stream s k h,
   execOps_preserves_entry ops s k h⟩

/-- Witness for C8: an existing "BTC-USD" entry survives a stream that
overwrites it and a heartbeat-filtered message, and an interleaving
with an update and a snapshot. -/
theorem c8_no_deletion_witness :
    ((((runLoop (fun _ => some ⟨"ticker", "BTC-USD", some "2"⟩)
        [Except.ok (Msg.text "x"), Except.ok Msg.binary]
        [("BTC-USD", "1")]).1).find? "BTC-USD").isSome = true) ∧
    (((execOps [Op.update "ETH-USD" "9", Op.snap] [("BTC-USD", "1")]).find?
        "BTC-USD").isSome = true) :=
  c8_no_deletion (fun _ => some ⟨"ticker", "BTC-USD", some "2"⟩)
    [Except.ok (Msg.text "x"), Except.ok Msg.binary]
    [Op.update "ETH-USD" "9", Op.snap] [("BTC-USD", "1")] "BTC-USD" (by decide)

theorem applyEventChecked_eq (s : Store) (e : TickerMessage) :
    applyEventChecked s e = Except.ok (applyEvent s e) := by
  unfold applyEventChecked applyEvent
  by_cases hg : (e.msg_type == "ticker" && e.price.isSome) = true
  · rw [if_pos hg, if_pos hg]
    have hps : e.price.isSome = true := by
      have := hg
      simp only [Bool.and_eq_true] at this
      exact this.2
    obtain ⟨p, hp⟩ := Option.isSome_iff_exists.mp hps
    rw [hp]
    rfl
  · rw [if_neg hg, if_neg hg]

/-- C9: the two unwraps of the reading loop are unreachable in their
failure branch: `to_text().unwrap()` runs only under `is_text()` and
`price.unwrap()` only under `price.is_some()`, so the panic-explicit
processing never signals a panic and agrees with the total one. -/
theorem c9_unwraps_ok (decode : String → Option TickerMessage)
    (m : Msg) (s : Store) :
    processMsgChecked decode m s = Except.ok (processMsg decode m s) := by
  cases m with
  | text t =>
      cases hd : decode t with
      | none =>
          simp [processMsgChecked, processMsg, Msg.is_text, Msg.to_text,
            optionUnwrap, Except.bind, hd]
      | some parsed =>
          simp [processMsgChecked, processMsg, Msg.is_text, Msg.to_text,
            optionUnwrap, Except.bind, hd, applyEventChecked_eq]
  | binary => rfl
  | other => rfl

theorem sameMapping_swapped :
    sameMapping [("AAA", "1"), ("BBB", "2")] [("BBB", "2"), ("AAA", "1")] := by
  intro k
  simp only [Store.find?]
  by_cases h1 : "AAA" = k
  · by_cases h2 : "BBB" = k
    · exact absurd (h1.trans h2.symm) (by decide)
    · simp [h1, h2]
  · by_cases h2 : "BBB" = k <;> simp [h1, h2]

/-- C7 counterexample: two stores equal as (symbol, price) mappings but
with different entry orders - as one HashMap under two insertion
histories or hash seeds can yield - render different texts, so the
output is not determined by the mapping contents alone. -/
theorem c7_counterexample :
    ¬ (∀ s1 s2 : Store, sameMapping s1 s2 → render s1 = render s2) := by
  intro hall
  have hne : render [("AAA", "1"), ("BBB", "2")] ≠ render [("BBB", "2"), ("AAA", "1")] := by
    decide
  exact hne (hall _ _ sameMapping_swapped)

theorem find?_eq_none_of_not_mem (s : Store) (k : String)
    (h : k ∉ s.map Prod.fst) : s.find? k = none := by
  induction s with
  | nil => rfl
  | cons hd tl ih =>
      obtain ⟨k', v'⟩ := hd
      rw [List.map_cons, List.mem_cons] at h
      push_neg at h
      simp only [Store.find?]
      rw [if_neg (fun hc => h.1 hc.symm), ih h.2]

theorem eq_nil_of_find?_none (s : Store) (h : ∀ k, s.find? k = none) : s = [] := by
  cases s with
  | nil => rfl
  | cons hd tl =>
      obtain ⟨k', v'⟩ := hd
      have := h k'
      simp [Store.find?] at this

theorem perm_cons_eraseKey (s : Store) (k v : String)
    (h : s.find? k = some v) : s.Perm ((k, v) :: eraseKey s k) := by
  induction s with
  | nil => simp [Store.find?] at h
  | cons hd tl ih =>
      obtain ⟨k', v'⟩ := hd
      by_cases hk : k' = k
      · subst hk
        have hv : v' = v := by
          have hh := h
          simp [Store.find?] at hh
          exact hh
        subst hv
        simp [eraseKey]
      · simp only [Store.find?, if_neg hk] at h
        simp only [eraseKey, if_neg hk]
        exact ((ih h).cons (k', v')).trans (List.Perm.swap (k, v) (k', v') (eraseKey tl k))

theorem keys_eraseKey_subset (s : Store) (k : String) :
    ((eraseKey s k).map Prod.fst) ⊆ s.map Prod.fst := by
  induction s with
  | nil => simp [eraseKey]
  | cons hd tl ih =>
      obtain ⟨k', v'⟩ := hd
      by_cases hk : k' = k
      · simp only [eraseKey, if_pos hk, List.map_cons]
        exact List.subset_cons_of_subset k' (fun a ha => ha)
      · simp only [eraseKey, if_neg hk, List.map_cons]
        exact List.cons_subset_cons k' ih

theorem nodupKeys_eraseKey (s : Store) (k : String)
    (h : nodupKeys s) : nodupKeys (eraseKey s k) := by
  induction s with
  | nil => exact h
  | cons hd tl ih =>
      obtain ⟨k', v'⟩ := hd
      rw [nodupKeys, List.map_cons, List.nodup_cons] at h
      by_cases hk : k' = k
      · simpa only [nodupKeys, eraseKey, if_pos hk] using h.2
      · rw [nodupKeys, eraseKey, if_neg hk, List.map_cons, List.nodup_cons]
        exact ⟨fun hm => h.1 (keys_eraseKey_subset tl k hm), ih h.2⟩

theorem find?_eraseKey (s : Store) (k k' : String) (h : nodupKeys s) :
    (eraseKey s k).find? k' = if k' = k then none else s.find? k' := by
  induction s with
  | nil => simp [eraseKey, Store.find?]
  | cons hd tl ih =>
      obtain ⟨k0, v0⟩ := hd
      rw [nodupKeys, List.map_cons, List.nodup_cons] at h
      have ih' := ih h.2
      by_cases hk : k0 = k
      · subst hk
        have he : eraseKey ((k0, v0) :: tl) k0 = tl := by simp [eraseKey]
        rw [he]
        by_cases hk' : k' = k0
        · rw [if_pos hk', hk']
          exact find?_eq_none_of_not_mem tl k0 h.1
        · rw [if_neg hk']
          have hcons : Store.find? ((k0, v0) :: tl) k' = Store.find? tl k' := by
            simp only [Store.find?]
            rw [if_neg (fun hc => hk' hc.symm)]
          rw [hcons]
      · have he : eraseKey ((k0, v0) :: tl) k = (k0, v0) :: eraseKey tl k := by
          simp [eraseKey, hk]
        rw [he]
        by_cases hk0 : k0 = k'
        · have hk'k : ¬k' = k := fun hc => hk (hk0.trans hc)
          have l1 : Store.find? ((k0, v0) :: eraseKey tl k) k' = some v0 := by
            simp only [Store.find?]
            rw [if_pos hk0]
          have l2 : Store.find? ((k0, v0) :: tl) k' = some v0 := by
            simp only [Store.find?]
            rw [if_pos hk0]
          rw [l1, if_neg hk'k, l2]
        · have l1 : Store.find? ((k0, v0) :: eraseKey tl k) k'
              = Store.find? (eraseKey tl k) k' := by
            simp only [Store.find?]
            rw [if_neg hk0]
          have l2 : Store.find? ((k0, v0) :: tl) k' = Store.find? tl k' := by
            simp only [Store.find?]
            rw [if_neg hk0]
          rw [l1, ih', l2]

theorem perm_of_sameMapping (s1 s2 : Store)
    (h1 : nodupKeys s1) (h2 : nodupKeys s2) (h : sameMapping s1 s2) :
    s1.Perm s2 := by
  induction s1 generalizing s2 with
  | nil =>
      rw [eq_nil_of_find?_none s2 (fun k => (h k).symm)]
  | cons hd tl ih =>
      obtain ⟨k, v⟩ := hd
      rw [nodupKeys, List.map_cons, List.nodup_cons] at h1
      have hfind : s2.find? k = some v := by
        have hh := h k
        simp [Store.find?] at hh
        exact hh.symm
      have hperm2 : s2.Perm ((k, v) :: eraseKey s2 k) :=
        perm_cons_eraseKey s2 k v hfind
      have htl : sameMapping tl (eraseKey s2 k) := by
        intro k'
        rw [find?_eraseKey s2 k k' h2]
        by_cases hk' : k' = k
        · rw [if_pos hk', hk']
          exact find?_eq_none_of_not_mem tl k h1.1
        · rw [if_neg hk']
          have hh := h k'
          simp only [Store.find?] at hh
          rw [if_neg (fun hc : k = k' => hk' hc.symm)] at hh
          exact hh
      have hrec := ih (eraseKey s2 k) h1.2 (nodupKeys_eraseKey s2 k h2) htl
      exact (hrec.cons (k, v)).trans hperm2.symm

/-- C7 (amended): the rendered block is a pure function of the snapshot
the reporter reads, so repeated renderings of one snapshot are
identical; for two snapshots that agree as (symbol, price) mappings the
per-symbol lines agree up to permutation, but their order - and hence
the exact text - follows the store's entry order, which the mapping
alone does not determine. -/
theorem c7_lines_perm_of_sameMapping (s1 s2 : Store)
    (h1 : nodupKeys s1) (h2 : nodupKeys s2) (h : sameMapping s1 s2) :
    (s1.map renderLine).Perm (s2.map renderLine) :=
  (perm_of_sameMapping s1 s2 h1 h2 h).map renderLine

/-- Witness for C7 (amended) at the two concrete reorderings. -/
theorem c7_lines_perm_of_sameMapping_witness :
    (([("AAA", "1"), ("BBB", "2")] : Store).map renderLine).Perm
      (([("BBB", "2"), ("AAA", "1")] : Store).map renderLine) :=
  c7_lines_perm_of_sameMapping [("AAA", "1"), ("BBB", "2")] [("BBB", "2"), ("AAA", "1")]
    (by show (List.map Prod.fst [("AAA", "1"), ("BBB", "2")]).Nodup; decide)
    (by show (List.map Prod.fst [("BBB", "2"), ("AAA", "1")]).Nodup; decide)
    sameMapping_swapped

end CrabbyTracker
